import Mathlib

/-!
Verification development for a gossip-based P2P network
(seed nodes with quorum consensus, peers with gossip, liveness and
suspicion).  The definitions are a shallow embedding of `seed.py` and
`peer.py`: Python dicts become association lists (insertion keeps the
position of an existing key and appends fresh keys, exactly like a
Python dict), Python sets become lists with membership-guarded append,
sockets become natural-number identifiers, timestamps and random draws
become explicit parameters.
-/

/-! ## Python-dict and python-set helpers -/

/-- Lookup in an association list (first occurrence), like `d.get(k)`. -/
def dget {α β : Type} [DecidableEq α] (m : List (α × β)) (k : α) : Option β :=
  match m with
  | [] => none
  | (a, b) :: rest => if a = k then some b else dget rest k

/-- Python dict assignment `d[k] = v`: update in place if the key exists
(keeping its position), otherwise append at the end. -/
def dput {α β : Type} [DecidableEq α] (m : List (α × β)) (k : α) (v : β) : List (α × β) :=
  match m with
  | [] => [(k, v)]
  | (a, b) :: rest => if a = k then (k, v) :: rest else (a, b) :: dput rest k v

/-- Python `del d[k]` / `d.pop(k, None)`: drop every binding of `k`. -/
def ddel {α β : Type} [DecidableEq α] (m : List (α × β)) (k : α) : List (α × β) :=
  m.filter (fun p => decide (p.1 ≠ k))

/-- Python `s.add(x)` on a set modelled as a list. -/
def sadd {α : Type} [DecidableEq α] (s : List α) (x : α) : List α :=
  if x ∈ s then s else s ++ [x]

theorem dget_dput_self {α β : Type} [DecidableEq α] (m : List (α × β)) (k : α) (v : β) :
    dget (dput m k v) k = some v := by
  induction m with
  | nil => simp [dput, dget]
  | cons hd tl ih =>
    obtain ⟨a, b⟩ := hd
    by_cases h : a = k
    · simp [dput, dget, h]
    · simp [dput, dget, h, ih]

theorem dget_dput_ne {α β : Type} [DecidableEq α] (m : List (α × β)) (k k' : α) (v : β)
    (h : k' ≠ k) : dget (dput m k v) k' = dget m k' := by
  have h2 : ¬ k = k' := Ne.symm h
  induction m with
  | nil => simp [dput, dget, h2]
  | cons hd tl ih =>
    obtain ⟨a, b⟩ := hd
    by_cases ha : a = k
    · subst ha
      simp [dput, dget, h2]
    · simp [dput, dget, ha, ih]

theorem ddel_eq_of_dget_none {α β : Type} [DecidableEq α] (m : List (α × β)) (k : α)
    (h : dget m k = none) : ddel m k = m := by
  induction m with
  | nil => simp [ddel]
  | cons hd tl ih =>
    obtain ⟨a, b⟩ := hd
    by_cases ha : a = k
    · simp [dget, ha] at h
    · simp [dget, ha] at h
      simp [ddel] at ih ⊢
      exact ⟨ha, ih h⟩

theorem dget_ddel_self {α β : Type} [DecidableEq α] (m : List (α × β)) (k : α) :
    dget (ddel m k) k = none := by
  induction m with
  | nil => simp [ddel, dget]
  | cons hd tl ih =>
    obtain ⟨a, b⟩ := hd
    by_cases ha : a = k
    · simpa [ddel, ha] using ih
    · simpa [ddel, dget, ha] using ih

theorem mem_sadd {α : Type} [DecidableEq α] (s : List α) (x y : α) :
    y ∈ sadd s x ↔ y ∈ s ∨ y = x := by
  by_cases h : x ∈ s
  · simp [sadd, h]
    intro hy; subst hy; exact h
  · simp [sadd, h]

theorem self_mem_sadd {α : Type} [DecidableEq α] (s : List α) (x : α) :
    x ∈ sadd s x := by
  simp [mem_sadd]

/-! ## Data model for the seed node (`seed.py`) -/

/-- An (ip, port) endpoint. -/
abbrev Endpoint := String × Int

/-- A `peer_list` value: `{degree, registered_at}`. -/
structure PeerMeta where
  degree : Int
  registered_at : Int
  deriving DecidableEq

/-- One wire peer-list element `{ip, port, degree}` as serialised by
`_pl_serialised` / `_pl_excl`. -/
structure PLEntry where
  ip : String
  port : Int
  degree : Int
  deriving DecidableEq

/-- A `pending_reg` value: `{peer, votes, conn, decided}`. -/
structure RegEntry where
  peer : Endpoint
  votes : List (String × Bool)
  conn : Nat
  decided : Bool
  deriving DecidableEq

/-- A `pending_rem` value: `{peer, votes, decided}`. -/
structure RemEntry where
  peer : Endpoint
  votes : List (String × Bool)
  decided : Bool
  deriving DecidableEq

/-- The mutable state of a `SeedNode`. -/
structure SeedState where
  sid : String
  n_seeds : Nat
  peer_list : List (Endpoint × PeerMeta)
  pending_reg : List (String × RegEntry)
  dead_reports : List (Endpoint × List String)
  pending_rem : List (String × RemEntry)
  seed_channels : List (String × Nat)
  deriving DecidableEq

/-- Messages a seed sends (the subset of the wire catalogue that seed
handlers emit). -/
inductive Msg where
  | registerResponse (status : String) (peer_list : Option (List PLEntry))
  | registerProposal (req_id : String) (peer_ip : String) (peer_port : Int) (proposer : String)
  | registerVote (req_id : String) (voter : String) (vote : Bool)
  | deadProposal (req_id : String) (dead_ip : String) (dead_port : Int) (proposer : String)
  | deadVote (req_id : String) (voter : String) (vote : Bool) (dead_ip : String) (dead_port : Int)
  | deadConfirmed (dead_ip : String) (dead_port : Int)
  | peerListResponse (peer_list : List PLEntry)
  deriving DecidableEq

/-- `self.quorum = (self.n_seeds // 2) + 1`. -/
def quorum (s : SeedState) : Nat := s.n_seeds / 2 + 1

/-- Number of YES votes: `sum(1 for v in votes.values() if v)`. -/
def countYes (votes : List (String × Bool)) : Nat :=
  (votes.filter (fun v => v.2)).length

/-- Number of NO votes: `sum(1 for v in votes.values() if not v)`. -/
def countNo (votes : List (String × Bool)) : Nat :=
  (votes.filter (fun v => !v.2)).length

/-- `_pl_excl`: serialise `peer_list` skipping `exclude`. -/
def pl_excl (s : SeedState) (exclude : Endpoint) : List PLEntry :=
  (s.peer_list.filter (fun p => decide (p.1 ≠ exclude))).map
    (fun p => ⟨p.1.1, p.1.2, p.2.degree⟩)

/-- `_broadcast_to_seeds`: send `m` on every socket in `seed_channels`. -/
def broadcast_to_seeds (s : SeedState) (m : Msg) : List (Nat × Msg) :=
  s.seed_channels.map (fun c => (c.2, m))

/-- `_check_reg_quorum`.  `now` is the `time.time()` reading used for
`registered_at`.  Returns the new state and the messages sent
(socket, message). -/
def check_reg_quorum (s : SeedState) (rid : String) (now : Int) :
    SeedState × List (Nat × Msg) :=
  match dget s.pending_reg rid with
  | none => (s, [])
  | some e =>
    if e.decided then (s, [])
    else if countYes e.votes ≥ quorum s then
      let s1 : SeedState :=
        { s with pending_reg := dput s.pending_reg rid { e with decided := true },
                 peer_list := dput s.peer_list e.peer ⟨0, now⟩ }
      (s1, [(e.conn, .registerResponse "ok" (some (pl_excl s1 e.peer)))])
    else if (countNo e.votes : Int) > (s.n_seeds : Int) - (quorum s : Int) then
      let s1 : SeedState :=
        { s with pending_reg := dput s.pending_reg rid { e with decided := true } }
      (s1, [(e.conn, .registerResponse "rejected" none)])
    else (s, [])

/-- `_on_register_request`.  `rid` stands for the generated
`req_id` and `conn` for the requester socket. -/
def on_register_request (s : SeedState) (ip : String) (port : Int) (conn : Nat)
    (rid : String) (now : Int) : SeedState × List (Nat × Msg) :=
  let pk : Endpoint := (ip, port)
  if (dget s.peer_list pk).isSome then
    (s, [(conn, .registerResponse "ok" (some (pl_excl s pk)))])
  else
    let s1 : SeedState :=
      { s with pending_reg := dput s.pending_reg rid ⟨pk, [(s.sid, true)], conn, false⟩ }
    let out1 := broadcast_to_seeds s1 (.registerProposal rid ip port s1.sid)
    let r2 := check_reg_quorum s1 rid now
    (r2.1, out1 ++ r2.2)

/-- `_on_register_vote` (accumulate a vote, then re-check quorum). -/
def on_register_vote (s : SeedState) (rid voter : String) (vote : Bool) (now : Int) :
    SeedState × List (Nat × Msg) :=
  match dget s.pending_reg rid with
  | none => (s, [])
  | some e =>
    if e.decided then (s, [])
    else
      let s1 : SeedState :=
        { s with pending_reg := dput s.pending_reg rid { e with votes := dput e.votes voter vote } }
      check_reg_quorum s1 rid now

/-- `_reg_timeout` body after the 10 s sleep. -/
def reg_timeout (s : SeedState) (rid : String) : SeedState × List (Nat × Msg) :=
  match dget s.pending_reg rid with
  | none => (s, [])
  | some e =>
    if e.decided then (s, [])
    else
      ({ s with pending_reg := dput s.pending_reg rid { e with decided := true } },
       [(e.conn, .registerResponse "timeout" none)])

/-- The reporter set recorded for a dead endpoint (empty when absent). -/
def reportersOf (s : SeedState) (d : Endpoint) : List String :=
  (dget s.dead_reports d).getD []

/-- `_check_rem_quorum`. -/
def check_rem_quorum (s : SeedState) (rid : String) : SeedState × List (Nat × Msg) :=
  match dget s.pending_rem rid with
  | none => (s, [])
  | some e =>
    if e.decided then (s, [])
    else if countYes e.votes ≥ quorum s then
      let s1 : SeedState :=
        { s with pending_rem := dput s.pending_rem rid { e with decided := true } }
      let removed := (dget s1.peer_list e.peer).isSome
      let s2 : SeedState :=
        if removed then { s1 with peer_list := ddel s1.peer_list e.peer } else s1
      (s2, if removed then broadcast_to_seeds s2 (.deadConfirmed e.peer.1 e.peer.2) else [])
    else (s, [])

/-- `_propose_removal` (with the generated `req_id` as a parameter). -/
def propose_removal (s : SeedState) (d : Endpoint) (rid : String) :
    SeedState × List (Nat × Msg) :=
  if (dget s.peer_list d).isSome then
    let s1 : SeedState :=
      { s with pending_rem := dput s.pending_rem rid ⟨d, [(s.sid, true)], false⟩ }
    let out1 := broadcast_to_seeds s1 (.deadProposal rid d.1 d.2 s1.sid)
    let r2 := check_rem_quorum s1 rid
    (r2.1, out1 ++ r2.2)
  else (s, [])

/-- `_on_dead_report`: deduplicate on (dead endpoint, reporter), then
propose removal. -/
def on_dead_report (s : SeedState) (d : Endpoint) (reporter : String) (rid : String) :
    SeedState × List (Nat × Msg) :=
  let reps := reportersOf s d
  if reporter ∈ reps then (s, [])
  else
    let s1 : SeedState := { s with dead_reports := dput s.dead_reports d (reps ++ [reporter]) }
    propose_removal s1 d rid

/-- `_on_dead_vote`. -/
def on_dead_vote (s : SeedState) (rid voter : String) (vote : Bool) :
    SeedState × List (Nat × Msg) :=
  match dget s.pending_rem rid with
  | none => (s, [])
  | some e =>
    if e.decided then (s, [])
    else
      let s1 : SeedState :=
        { s with pending_rem := dput s.pending_rem rid { e with votes := dput e.votes voter vote } }
      check_rem_quorum s1 rid

/-- `_rem_timeout` body after the 10 s sleep. -/
def rem_timeout (s : SeedState) (rid : String) : SeedState × List (Nat × Msg) :=
  match dget s.pending_rem rid with
  | none => (s, [])
  | some e =>
    if e.decided then (s, [])
    else ({ s with pending_rem := dput s.pending_rem rid { e with decided := true } }, [])

/-- The `DEAD_CONFIRMED` branch of `_route_message` on a seed:
delete the endpoint from `peer_list` when present. -/
def on_dead_confirmed_seed (s : SeedState) (d : Endpoint) : SeedState :=
  { s with peer_list := ddel s.peer_list d }

/-! ## Data model for the peer node (`peer.py`) -/

/-- A `suspected` value: `{confirmations, reported}`. -/
structure SuspEntry where
  confirmations : List String
  reported : Bool
  deriving DecidableEq

/-- The mutable state of a `PeerNode` (the parts the handlers touch). -/
structure PeerState where
  host : String
  port : Int
  ml : List String
  neighbours : List (Endpoint × Nat)
  seed_socks : List (Endpoint × Nat)
  missed_pings : List (Endpoint × Nat)
  pong_received : List Endpoint
  suspected : List (Endpoint × SuspEntry)
  deriving DecidableEq

/-- `self.id = f"{host}:{port}"`. -/
def pid (s : PeerState) : String := s.host ++ ":" ++ toString s.port

/-- A GOSSIP message as a record; optional fields mirror `msg.get`. -/
structure GossipMsg where
  content : String
  hash : Option String
  origin_ip : String
  origin_port : Int
  sender_ip : Option String
  sender_port : Option Int
  deriving DecidableEq

/-- Messages a peer sends from the handlers modelled here. -/
inductive PMsg where
  | suspectRequest (suspect_ip : String) (suspect_port : Int)
      (requester_ip : String) (requester_port : Int)
  | deadReport (dead_ip : String) (dead_port : Int) (timestamp : Int) (reporter : String)
  deriving DecidableEq

/-- Python `msg.get("hash") or sha256(content)`: an absent or empty
(falsy) hash field falls back to the computed digest. -/
def pyOr (o : Option String) (d : String) : String :=
  match o with
  | some s => if s = "" then d else s
  | none => d

/-- `_on_gossip`.  `sha` abstracts `hashlib.sha256(...).hexdigest()`,
`sender` is the socket the message arrived on.  Returns the new state,
the forwarded messages, and whether the first-seen event was logged. -/
def on_gossip (sha : String → String) (s : PeerState) (m : GossipMsg) (sender : Nat) :
    PeerState × List (Nat × GossipMsg) × Bool :=
  let h := pyOr m.hash (sha m.content)
  if h ∈ s.ml then (s, [], false)
  else
    let s1 : PeerState := { s with ml := sadd s.ml h }
    let fwd : GossipMsg := { m with sender_ip := some s.host, sender_port := some s.port }
    (s1, (s1.neighbours.filter (fun c => decide (c.2 ≠ sender))).map (fun c => (c.2, fwd)), true)

/-- The PONG branch of `_handle_inbound`: only acts when the inbound
connection has identified itself via HELLO (`peer_key` is set). -/
def inbound_pong (s : PeerState) (peer_key : Option Endpoint) : PeerState :=
  match peer_key with
  | none => s
  | some k =>
    { s with missed_pings := dput s.missed_pings k 0,
             pong_received := sadd s.pong_received k }

/-- The PONG branch of `_listen_neighbour` (outbound loop). -/
def outbound_pong (s : PeerState) (peer_key : Endpoint) : PeerState :=
  { s with missed_pings := dput s.missed_pings peer_key 0,
           pong_received := sadd s.pong_received peer_key }

/-- `_start_suspicion`. -/
def start_suspicion (s : PeerState) (suspect : Endpoint) : PeerState × List (Nat × PMsg) :=
  if (dget s.suspected suspect).isSome then (s, [])
  else
    let s1 : PeerState := { s with suspected := dput s.suspected suspect ⟨[pid s], false⟩ }
    (s1, (s1.neighbours.filter (fun c => decide (c.1 ≠ suspect))).map
      (fun c => (c.2, .suspectRequest suspect.1 suspect.2 s.host s.port)))

/-- `_report_dead`: send DEAD_REPORT on every open seed socket. -/
def report_dead (s : PeerState) (d : Endpoint) (ts : Int) : List (Nat × PMsg) :=
  s.seed_socks.map (fun c => (c.2, .deadReport d.1 d.2 ts (pid s)))

/-- `max(1, (len(neighbours) // 2) + 1)`. -/
def peer_quorum (s : PeerState) : Nat := max 1 (s.neighbours.length / 2 + 1)

/-- `_on_suspect_response`.  `alive` is optional, defaulting to true
(`msg.get("alive", True)`); `ts` is the clock reading used by
`_report_dead`. -/
def on_suspect_response (s : PeerState) (suspect : Endpoint) (alive : Option Bool)
    (responder_ip : String) (responder_port : Int) (ts : Int) :
    PeerState × List (Nat × PMsg) :=
  let aliveB := alive.getD true
  let responder := responder_ip ++ ":" ++ toString responder_port
  match dget s.suspected suspect with
  | none => (s, [])
  | some e =>
    if e.reported then (s, [])
    else
      let e1 : SuspEntry :=
        if aliveB then e else { e with confirmations := sadd e.confirmations responder }
      let s1 : PeerState := { s with suspected := dput s.suspected suspect e1 }
      let cnt := e1.confirmations.length
      if cnt ≥ peer_quorum s1 then
        match dget s1.suspected suspect with
        | none => (s1, [])
        | some e2 =>
          if e2.reported then (s1, [])
          else
            ({ s1 with suspected := dput s1.suspected suspect { e2 with reported := true } },
             report_dead s1 suspect ts)
      else (s1, [])

/-- `_suspicion_timeout` body after the 20 s sleep. -/
def suspicion_timeout (s : PeerState) (suspect : Endpoint) : PeerState :=
  match dget s.suspected suspect with
  | none => s
  | some e => if e.reported then s else { s with suspected := ddel s.suspected suspect }

/-- `_on_dead_confirmed` on a peer: pop the endpoint from `neighbours`,
`suspected` and `missed_pings`. -/
def on_dead_confirmed_peer (s : PeerState) (d : Endpoint) : PeerState :=
  { s with neighbours := ddel s.neighbours d,
           suspected := ddel s.suspected d,
           missed_pings := ddel s.missed_pings d }

/-! ## The seed's message-driven operations as one step function

Each constructor is one handler invocation of `seed.py` (with the
generated request ids, clock readings and sockets as explicit data).
`SEED_HELLO`, `PEER_LIST_REQUEST` and connection management do not touch
the consensus state and are omitted. -/

inductive SeedOp where
  | regRequest (ip : String) (port : Int) (conn : Nat) (rid : String) (now : Int)
  | regVote (rid voter : String) (vote : Bool) (now : Int)
  | regTimeout (rid : String)
  | deadReport (d : Endpoint) (reporter : String) (rid : String)
  | deadVote (rid voter : String) (vote : Bool)
  | remTimeout (rid : String)
  | deadSync (d : Endpoint)
  deriving DecidableEq

/-- Dispatch one received message / timer to its handler, as
`_route_message` and the timeout threads do. -/
def seedStep (s : SeedState) : SeedOp → SeedState × List (Nat × Msg)
  | .regRequest ip port conn rid now => on_register_request s ip port conn rid now
  | .regVote rid voter v now => on_register_vote s rid voter v now
  | .regTimeout rid => reg_timeout s rid
  | .deadReport d r rid => on_dead_report s d r rid
  | .deadVote rid voter v => on_dead_vote s rid voter v
  | .remTimeout rid => rem_timeout s rid
  | .deadSync d => (on_dead_confirmed_seed s d, [])

/-! ## General helper lemmas -/

/-- A serialised peer-list snapshot that excludes `x` never mentions `x`. -/
theorem pl_excl_not_self (s : SeedState) (x : Endpoint) :
    ∀ p ∈ pl_excl s x, (p.ip, p.port) ≠ x := by
  intro p hp
  simp only [pl_excl, List.mem_map, List.mem_filter] at hp
  obtain ⟨q, ⟨_, hq⟩, rfl⟩ := hp
  simpa using of_decide_eq_true hq

theorem map_snd_filter_snd {α : Type} (l : List (α × Nat)) (x : Nat) :
    ((l.filter (fun c => decide (c.2 ≠ x))).map Prod.snd)
      = (l.map Prod.snd).filter (fun y => decide (y ≠ x)) := by
  induction l with
  | nil => simp
  | cons hd tl ih =>
    simp only [decide_not] at ih ⊢
    by_cases h : hd.2 = x <;> simp [h, ih]

/-! ## Concrete states used by the witnesses -/

def sw0 : SeedState :=
  { sid := "127.0.0.1:5001", n_seeds := 3,
    peer_list := [(("127.0.0.1", 6001), ⟨0, 0⟩), (("127.0.0.1", 6002), ⟨1, 0⟩)],
    pending_reg := [], dead_reports := [], pending_rem := [],
    seed_channels := [("127.0.0.1:5002", 1), ("127.0.0.1:5003", 2)] }

def pw0 : PeerState :=
  { host := "127.0.0.1", port := 6001, ml := ["h1"],
    neighbours := [(("127.0.0.1", 6002), 3), (("127.0.0.1", 6003), 4)],
    seed_socks := [(("127.0.0.1", 5001), 8)],
    missed_pings := [(("127.0.0.1", 6002), 2)],
    pong_received := [], suspected := [] }

def shaW : String → String := fun c => "sha:" ++ c

def gmDup : GossipMsg :=
  { content := "1700000000.000000:127.0.0.1:1", hash := some "h1",
    origin_ip := "127.0.0.1", origin_port := 6002, sender_ip := none, sender_port := none }

def gmNew : GossipMsg :=
  { content := "1700000000.000000:127.0.0.1:2", hash := some "h2",
    origin_ip := "127.0.0.1", origin_port := 6002, sender_ip := none, sender_port := none }

/-! ## C6: PONG handling resets the missed-ping counter -/

/-- C6: immediately after a peer processes a PONG from neighbour `k`
(inbound loop with the connection identified as `k`, or outbound
loop for `k`), `missed_pings[k] = 0` and `k ∈ pong_received`. -/
theorem c6_pong_resets_missed_pings (s : PeerState) (k : Endpoint) :
    dget (inbound_pong s (some k)).missed_pings k = some 0 ∧
    k ∈ (inbound_pong s (some k)).pong_received ∧
    dget (outbound_pong s k).missed_pings k = some 0 ∧
    k ∈ (outbound_pong s k).pong_received := by
  refine ⟨?_, ?_, ?_, ?_⟩ <;>
    simp [inbound_pong, outbound_pong, dget_dput_self, self_mem_sadd]

/-! ## C8: duplicate REGISTER_REQUEST is answered without a proposal -/

/-- C8: a REGISTER_REQUEST from an endpoint already in `peer_list` is
answered immediately with an ok response whose snapshot excludes the
requester; the state (peer_list, pending_reg, …) is unchanged and the
single output is the response (no REGISTER_PROPOSAL broadcast). -/
theorem c8_duplicate_register_request (s : SeedState) (ip : String) (port : Int)
    (conn : Nat) (rid : String) (now : Int)
    (h : (dget s.peer_list (ip, port)).isSome) :
    on_register_request s ip port conn rid now
      = (s, [(conn, .registerResponse "ok" (some (pl_excl s (ip, port))))]) ∧
    (∀ p ∈ pl_excl s (ip, port), (p.ip, p.port) ≠ (ip, port)) ∧
    (∀ o ∈ (on_register_request s ip port conn rid now).2,
      ∀ a b c d, o.2 ≠ Msg.registerProposal a b c d) := by
  refine ⟨by simp [on_register_request, h], pl_excl_not_self s (ip, port), ?_⟩
  simp [on_register_request, h]

/-- Witness for C8 at a concrete already-registered endpoint. -/
theorem c8_witness :
    (dget sw0.peer_list ("127.0.0.1", 6001)).isSome ∧
    on_register_request sw0 "127.0.0.1" 6001 9 "r1" 5
      = (sw0, [(9, .registerResponse "ok" (some (pl_excl sw0 ("127.0.0.1", 6001))))]) :=
  ⟨by decide,
   (c8_duplicate_register_request sw0 "127.0.0.1" 6001 9 "r1" 5 (by decide)).1⟩

/-! ## C9: DEAD_CONFIRMED for an absent endpoint is a no-op -/

/-- C9: processing DEAD_CONFIRMED for an endpoint absent from the local
state changes nothing: on a seed the whole state (in particular
`peer_list`) is unchanged, and on a peer the removal from `neighbours`,
`suspected` and `missed_pings` leaves the state unchanged. -/
theorem c9_dead_confirmed_idempotent (s : SeedState) (p : PeerState) (d : Endpoint)
    (h1 : dget s.peer_list d = none)
    (h2 : dget p.neighbours d = none)
    (h3 : dget p.suspected d = none)
    (h4 : dget p.missed_pings d = none) :
    on_dead_confirmed_seed s d = s ∧ on_dead_confirmed_peer p d = p := by
  constructor
  · simp [on_dead_confirmed_seed, ddel_eq_of_dget_none _ _ h1]
  · simp [on_dead_confirmed_peer, ddel_eq_of_dget_none _ _ h2,
      ddel_eq_of_dget_none _ _ h3, ddel_eq_of_dget_none _ _ h4]

/-- Witness for C9 at a concrete absent endpoint. -/
theorem c9_witness :
    dget sw0.peer_list ("9.9.9.9", 1) = none ∧
    on_dead_confirmed_seed sw0 ("9.9.9.9", 1) = sw0 ∧
    on_dead_confirmed_peer pw0 ("9.9.9.9", 1) = pw0 := by
  refine ⟨by decide, ?_, ?_⟩
  · exact (c9_dead_confirmed_idempotent sw0 pw0 ("9.9.9.9", 1)
      (by decide) (by decide) (by decide) (by decide)).1
  · exact (c9_dead_confirmed_idempotent sw0 pw0 ("9.9.9.9", 1)
      (by decide) (by decide) (by decide) (by decide)).2

/-! ## C3: GOSSIP deduplication and forwarding -/

/-- C3: a GOSSIP whose hash is already in the message-log leaves the
state unchanged, forwards nothing and logs nothing; a fresh one is
inserted into the log, logged as first seen, gets `sender_ip` /
`sender_port` attached and is forwarded to every neighbour socket
except the one it arrived on. -/
theorem c3_gossip_dedup_and_forward (sha : String → String) (s : PeerState)
    (m : GossipMsg) (sender : Nat) :
    (pyOr m.hash (sha m.content) ∈ s.ml →
      on_gossip sha s m sender = (s, [], false)) ∧
    (pyOr m.hash (sha m.content) ∉ s.ml →
      (on_gossip sha s m sender).1
          = { s with ml := s.ml ++ [pyOr m.hash (sha m.content)] } ∧
      (on_gossip sha s m sender).2.2 = true ∧
      (on_gossip sha s m sender).2.1
          = (s.neighbours.filter (fun c => decide (c.2 ≠ sender))).map
              (fun c => (c.2, { m with sender_ip := some s.host,
                                       sender_port := some s.port })) ∧
      ((on_gossip sha s m sender).2.1.map Prod.fst)
          = (s.neighbours.map Prod.snd).filter (fun y => decide (y ≠ sender))) := by
  constructor
  · intro h
    simp [on_gossip, h]
  · intro h
    refine ⟨by simp [on_gossip, h, sadd], by simp [on_gossip, h], ?_, ?_⟩
    · simp [on_gossip, h]
    · simp only [on_gossip, h, if_neg, List.map_map]
      simpa using map_snd_filter_snd s.neighbours sender

/-- Witness for C3: a duplicate GOSSIP is dropped and a fresh one is
forwarded, on a concrete peer state. -/
theorem c3_witness :
    ("h1" ∈ pw0.ml ∧ on_gossip shaW pw0 gmDup 3 = (pw0, [], false)) ∧
    ("h2" ∉ pw0.ml ∧
      (on_gossip shaW pw0 gmNew 3).1 = { pw0 with ml := pw0.ml ++ ["h2"] } ∧
      (on_gossip shaW pw0 gmNew 3).2.2 = true) := by
  constructor
  · exact ⟨by decide, (c3_gossip_dedup_and_forward shaW pw0 gmDup 3).1 (by decide)⟩
  · refine ⟨by decide, ?_, ?_⟩
    · exact ((c3_gossip_dedup_and_forward shaW pw0 gmNew 3).2 (by decide)).1
    · exact ((c3_gossip_dedup_and_forward shaW pw0 gmNew 3).2 (by decide)).2.1

/-! ## C1: DEAD_CONFIRMED fan-out on removal commit

`_check_rem_quorum` sends `DEAD_CONFIRMED` through
`_broadcast_to_seeds`, whose targets are exactly the sockets in
`seed_channels`.  `seed_channels` is populated only on `SEED_HELLO`
(dialling or accepting another seed), so the registration sockets the
peers keep open — on which `peer.py`'s `_listen_seed` waits for
`DEAD_CONFIRMED` — never receive the message. -/

/-- A seed `127.0.0.1:5001` in a 2-seed configuration: one peer seed is
connected on socket 1; peer `127.0.0.1:6001` was registered over
socket 7 (recorded in its decided `pending_reg` entry, and held open by
the peer's `_listen_seed`); a removal proposal for that peer has both
YES votes. -/
def c1state : SeedState :=
  { sid := "127.0.0.1:5001", n_seeds := 2,
    peer_list := [(("127.0.0.1", 6001), ⟨0, 0⟩)],
    pending_reg :=
      [("reg1", ⟨("127.0.0.1", 6001),
        [("127.0.0.1:5001", true), ("127.0.0.1:5002", true)], 7, true⟩)],
    dead_reports := [(("127.0.0.1", 6001), ["127.0.0.1:6002"])],
    pending_rem :=
      [("rem1", ⟨("127.0.0.1", 6001),
        [("127.0.0.1:5001", true), ("127.0.0.1:5002", true)], false⟩)],
    seed_channels := [("127.0.0.1:5002", 1)] }

/-- C1: on removal quorum the proposer removes the dead endpoint from
`peer_list` and broadcasts `DEAD_CONFIRMED` — but only on the
`seed_channels` sockets (here socket 1, the peer seed).  The original
registration socket 7, over which the registered peer listens for
`DEAD_CONFIRMED`, receives nothing: the second delivery path stated by
the specification does not exist in the code. -/
theorem c1_dead_confirmed_only_to_seed_channels :
    dget (check_rem_quorum c1state "rem1").1.peer_list ("127.0.0.1", 6001) = none ∧
    (check_rem_quorum c1state "rem1").2 = [(1, Msg.deadConfirmed "127.0.0.1" 6001)] ∧
    (7 : Nat) ∉ (check_rem_quorum c1state "rem1").2.map Prod.fst := by
  refine ⟨by decide, by decide, by decide⟩

/-! ## C5: lifetime of `pending_reg` entries -/

/-- A 1-seed configuration with a fresh pending registration carrying
the proposer's self-vote (quorum = 1, so the request commits). -/
def c5state : SeedState :=
  { sid := "127.0.0.1:5001", n_seeds := 1, peer_list := [],
    pending_reg :=
      [("r1", ⟨("127.0.0.1", 6001), [("127.0.0.1:5001", true)], 5, false⟩)],
    dead_reports := [], pending_rem := [], seed_channels := [] }

/-- Counterexample to C5: this registration request commits (the peer
is inserted and the ok response sent), yet the `pending_reg` entry is
NOT removed from the map — it is merely marked decided.  No code path
ever deletes from `pending_reg`. -/
theorem c5_counterexample_entry_survives_commit :
    dget (check_reg_quorum c5state "r1" 0).1.peer_list ("127.0.0.1", 6001)
        = some ⟨0, 0⟩ ∧
    (check_reg_quorum c5state "r1" 0).2
        = [(5, Msg.registerResponse "ok" (some []))] ∧
    dget (check_reg_quorum c5state "r1" 0).1.pending_reg "r1"
        = some ⟨("127.0.0.1", 6001), [("127.0.0.1:5001", true)], 5, true⟩ := by
  refine ⟨by decide, by decide, by decide⟩

/-! ## Preservation lemmas for the step function -/

theorem isSome_dget_dput {α β : Type} [DecidableEq α] (m : List (α × β)) (k k' : α)
    (v : β) (h : (dget m k).isSome) : (dget (dput m k' v) k).isSome := by
  by_cases hk : k = k'
  · subst hk
    simp [dget_dput_self]
  · rw [dget_dput_ne m k' k v hk]
    exact h

theorem check_reg_quorum_fields (s : SeedState) (rid : String) (now : Int) :
    (check_reg_quorum s rid now).1.dead_reports = s.dead_reports ∧
    (check_reg_quorum s rid now).1.pending_rem = s.pending_rem ∧
    (check_reg_quorum s rid now).1.seed_channels = s.seed_channels := by
  unfold check_reg_quorum
  cases dget s.pending_reg rid with
  | none => exact ⟨rfl, rfl, rfl⟩
  | some e =>
    dsimp only
    split_ifs <;> exact ⟨rfl, rfl, rfl⟩

theorem on_register_request_fields (s : SeedState) (ip : String) (port : Int)
    (conn : Nat) (rid : String) (now : Int) :
    (on_register_request s ip port conn rid now).1.dead_reports = s.dead_reports ∧
    (on_register_request s ip port conn rid now).1.pending_rem = s.pending_rem ∧
    (on_register_request s ip port conn rid now).1.seed_channels = s.seed_channels := by
  unfold on_register_request
  dsimp only
  split_ifs with h
  · exact ⟨rfl, rfl, rfl⟩
  · exact check_reg_quorum_fields _ rid now

theorem on_register_vote_fields (s : SeedState) (rid voter : String) (vote : Bool)
    (now : Int) :
    (on_register_vote s rid voter vote now).1.dead_reports = s.dead_reports ∧
    (on_register_vote s rid voter vote now).1.pending_rem = s.pending_rem ∧
    (on_register_vote s rid voter vote now).1.seed_channels = s.seed_channels := by
  unfold on_register_vote
  cases dget s.pending_reg rid with
  | none => exact ⟨rfl, rfl, rfl⟩
  | some e =>
    dsimp only
    split_ifs with h
    · exact ⟨rfl, rfl, rfl⟩
    · exact check_reg_quorum_fields _ rid now

theorem reg_timeout_fields (s : SeedState) (rid : String) :
    (reg_timeout s rid).1.dead_reports = s.dead_reports ∧
    (reg_timeout s rid).1.pending_rem = s.pending_rem ∧
    (reg_timeout s rid).1.seed_channels = s.seed_channels := by
  unfold reg_timeout
  cases dget s.pending_reg rid with
  | none => exact ⟨rfl, rfl, rfl⟩
  | some e =>
    dsimp only
    split_ifs <;> exact ⟨rfl, rfl, rfl⟩

theorem check_rem_quorum_fields (s : SeedState) (rid : String) :
    (check_rem_quorum s rid).1.dead_reports = s.dead_reports ∧
    (check_rem_quorum s rid).1.pending_reg = s.pending_reg := by
  unfold check_rem_quorum
  cases dget s.pending_rem rid with
  | none => exact ⟨rfl, rfl⟩
  | some e =>
    dsimp only
    split_ifs <;> exact ⟨rfl, rfl⟩

theorem propose_removal_fields (s : SeedState) (d : Endpoint) (rid : String) :
    (propose_removal s d rid).1.dead_reports = s.dead_reports ∧
    (propose_removal s d rid).1.pending_reg = s.pending_reg := by
  unfold propose_removal
  split_ifs with h
  · exact check_rem_quorum_fields _ rid
  · exact ⟨rfl, rfl⟩

theorem on_dead_report_pending_reg (s : SeedState) (d : Endpoint) (r rid : String) :
    (on_dead_report s d r rid).1.pending_reg = s.pending_reg := by
  unfold on_dead_report
  dsimp only
  split_ifs with h
  · rfl
  · exact (propose_removal_fields _ d rid).2

theorem on_dead_vote_fields (s : SeedState) (rid voter : String) (vote : Bool) :
    (on_dead_vote s rid voter vote).1.dead_reports = s.dead_reports ∧
    (on_dead_vote s rid voter vote).1.pending_reg = s.pending_reg := by
  unfold on_dead_vote
  cases dget s.pending_rem rid with
  | none => exact ⟨rfl, rfl⟩
  | some e =>
    dsimp only
    split_ifs with h
    · exact ⟨rfl, rfl⟩
    · exact check_rem_quorum_fields _ rid

theorem rem_timeout_fields (s : SeedState) (rid : String) :
    (rem_timeout s rid).1.dead_reports = s.dead_reports ∧
    (rem_timeout s rid).1.pending_reg = s.pending_reg := by
  unfold rem_timeout
  cases dget s.pending_rem rid with
  | none => exact ⟨rfl, rfl⟩
  | some e =>
    dsimp only
    split_ifs <;> exact ⟨rfl, rfl⟩

theorem check_reg_quorum_pending_isSome (s : SeedState) (rid' : String) (now : Int)
    (rid : String) (h : (dget s.pending_reg rid).isSome) :
    (dget (check_reg_quorum s rid' now).1.pending_reg rid).isSome := by
  unfold check_reg_quorum
  cases dget s.pending_reg rid' with
  | none => exact h
  | some e =>
    dsimp only
    split_ifs <;> first
      | exact h
      | exact isSome_dget_dput _ _ _ _ h

/-- No seed operation ever removes a `pending_reg` entry from the map. -/
theorem seedStep_pending_reg_isSome (s : SeedState) (op : SeedOp) (rid : String)
    (h : (dget s.pending_reg rid).isSome) :
    (dget (seedStep s op).1.pending_reg rid).isSome := by
  cases op with
  | regRequest ip port conn rid' now =>
    show (dget (on_register_request s ip port conn rid' now).1.pending_reg rid).isSome
    unfold on_register_request
    dsimp only
    split_ifs with hreg
    · exact h
    · exact check_reg_quorum_pending_isSome _ rid' now rid (isSome_dget_dput _ rid rid' _ h)
  | regVote rid' voter v now =>
    show (dget (on_register_vote s rid' voter v now).1.pending_reg rid).isSome
    unfold on_register_vote
    cases dget s.pending_reg rid' with
    | none => exact h
    | some e =>
      dsimp only
      split_ifs with hd
      · exact h
      · exact check_reg_quorum_pending_isSome _ rid' now rid (isSome_dget_dput _ rid rid' _ h)
  | regTimeout rid' =>
    show (dget (reg_timeout s rid').1.pending_reg rid).isSome
    unfold reg_timeout
    cases dget s.pending_reg rid' with
    | none => exact h
    | some e =>
      dsimp only
      split_ifs with hd
      · exact h
      · exact isSome_dget_dput _ rid rid' _ h
  | deadReport d r rid' =>
    show (dget (on_dead_report s d r rid').1.pending_reg rid).isSome
    rw [on_dead_report_pending_reg]
    exact h
  | deadVote rid' voter v =>
    show (dget (on_dead_vote s rid' voter v).1.pending_reg rid).isSome
    rw [(on_dead_vote_fields s rid' voter v).2]
    exact h
  | remTimeout rid' =>
    show (dget (rem_timeout s rid').1.pending_reg rid).isSome
    rw [(rem_timeout_fields s rid').2]
    exact h
  | deadSync d =>
    exact h

/-- C5 (amended): a `pending_reg` entry is retained in the map by every
seed operation (nothing ever deletes it); commit, rejection, and
timeout mark it decided in place. -/
theorem c5_pending_reg_retained_and_decided (s : SeedState) (op : SeedOp)
    (rid : String) (e : RegEntry) (now : Int)
    (he : dget s.pending_reg rid = some e) :
    (dget (seedStep s op).1.pending_reg rid).isSome ∧
    (e.decided = false → countYes e.votes ≥ quorum s →
      dget (check_reg_quorum s rid now).1.pending_reg rid
        = some { e with decided := true }) ∧
    (e.decided = false → ¬ countYes e.votes ≥ quorum s →
      (countNo e.votes : Int) > (s.n_seeds : Int) - (quorum s : Int) →
      dget (check_reg_quorum s rid now).1.pending_reg rid
        = some { e with decided := true }) ∧
    (e.decided = false →
      dget (reg_timeout s rid).1.pending_reg rid = some { e with decided := true }) := by
  refine ⟨seedStep_pending_reg_isSome s op rid (by simp [he]), ?_, ?_, ?_⟩
  · intro hd hq
    simp [check_reg_quorum, he, hd, hq, dget_dput_self]
  · intro hd hq hn
    simp [check_reg_quorum, he, hd, hq, hn, dget_dput_self]
  · intro hd
    simp [reg_timeout, he, hd, dget_dput_self]

/-- Witness for the amended C5 on the concrete 1-seed state: the entry
is still in the map after a step, and the timeout path marks it
decided in place. -/
theorem c5_amended_witness :
    dget c5state.pending_reg "r1"
        = some ⟨("127.0.0.1", 6001), [("127.0.0.1:5001", true)], 5, false⟩ ∧
    (dget (seedStep c5state (SeedOp.regTimeout "r1")).1.pending_reg "r1").isSome ∧
    dget (reg_timeout c5state "r1").1.pending_reg "r1"
        = some ⟨("127.0.0.1", 6001), [("127.0.0.1:5001", true)], 5, true⟩ := by
  refine ⟨by decide, ?_, ?_⟩
  · exact (c5_pending_reg_retained_and_decided c5state (SeedOp.regTimeout "r1") "r1"
      ⟨("127.0.0.1", 6001), [("127.0.0.1:5001", true)], 5, false⟩ 0 (by decide)).1
  · exact (c5_pending_reg_retained_and_decided c5state (SeedOp.regTimeout "r1") "r1"
      ⟨("127.0.0.1", 6001), [("127.0.0.1:5001", true)], 5, false⟩ 0 (by decide)).2.2.2 rfl

/-! ## C2: registration commit exactly at quorum -/

/-- Re-checking quorum never changes which request a pending entry is
for, its votes, or its reply socket — at most the decided flag. -/
theorem check_reg_quorum_entry (s : SeedState) (rid : String) (now : Int)
    (e1 : RegEntry) (h : dget s.pending_reg rid = some e1) :
    ∃ e2, dget (check_reg_quorum s rid now).1.pending_reg rid = some e2 ∧
      e2.peer = e1.peer ∧ e2.votes = e1.votes ∧ e2.conn = e1.conn := by
  unfold check_reg_quorum
  rw [h]
  dsimp only
  split_ifs with h1 h2 h3
  · exact ⟨e1, h, rfl, rfl, rfl⟩
  · exact ⟨{ e1 with decided := true }, by simp [dget_dput_self], rfl, rfl, rfl⟩
  · exact ⟨{ e1 with decided := true }, by simp [dget_dput_self], rfl, rfl, rfl⟩
  · exact ⟨e1, h, rfl, rfl, rfl⟩

/-- The commit branch of `_check_reg_quorum` written as an equation. -/
theorem check_reg_quorum_commit (s : SeedState) (rid : String) (now : Int)
    (e : RegEntry) (he : dget s.pending_reg rid = some e) (hd : e.decided = false)
    (hq : countYes e.votes ≥ quorum s) :
    check_reg_quorum s rid now =
      ({ s with pending_reg := dput s.pending_reg rid { e with decided := true },
                peer_list := dput s.peer_list e.peer ⟨0, now⟩ },
       [(e.conn, Msg.registerResponse "ok"
          (some (pl_excl { s with
            pending_reg := dput s.pending_reg rid { e with decided := true },
            peer_list := dput s.peer_list e.peer ⟨0, now⟩ } e.peer)))]) := by
  simp [check_reg_quorum, he, hd, hq]

/-- C2: quorum is `⌊n/2⌋+1`; a fresh REGISTER_REQUEST creates a pending
entry carrying the proposer's self-vote; an undecided entry commits
exactly when its YES-count reaches quorum — the peer is inserted with
degree 0, the entry is marked decided, and the single reply is
`REGISTER_RESPONSE {status: ok}` whose snapshot excludes the requester;
below quorum the peer list is untouched and no ok-response is sent. -/
theorem c2_register_commit_at_quorum (s : SeedState) (rid : String) (e : RegEntry)
    (now : Int) (he : dget s.pending_reg rid = some e) (hd : e.decided = false) :
    quorum s = s.n_seeds / 2 + 1 ∧
    (∀ ip port conn, dget s.peer_list (ip, port) = none →
      ∃ e2, dget (on_register_request s ip port conn rid now).1.pending_reg rid
              = some e2 ∧
        e2.peer = (ip, port) ∧ e2.votes = [(s.sid, true)] ∧ e2.conn = conn) ∧
    (countYes e.votes ≥ quorum s →
      dget (check_reg_quorum s rid now).1.peer_list e.peer = some ⟨0, now⟩ ∧
      dget (check_reg_quorum s rid now).1.pending_reg rid
          = some { e with decided := true } ∧
      (check_reg_quorum s rid now).2
          = [(e.conn, Msg.registerResponse "ok"
               (some (pl_excl (check_reg_quorum s rid now).1 e.peer)))] ∧
      (∀ p ∈ pl_excl (check_reg_quorum s rid now).1 e.peer,
         (p.ip, p.port) ≠ e.peer)) ∧
    (¬ countYes e.votes ≥ quorum s →
      (check_reg_quorum s rid now).1.peer_list = s.peer_list ∧
      ∀ o ∈ (check_reg_quorum s rid now).2, ∀ l, o.2 ≠ Msg.registerResponse "ok" l) := by
  refine ⟨rfl, ?_, ?_, ?_⟩
  · intro ip port conn hnone
    unfold on_register_request
    dsimp only
    simp only [hnone, Option.isSome_none, Bool.false_eq_true, if_false]
    exact check_reg_quorum_entry
      { s with pending_reg := dput s.pending_reg rid ⟨(ip, port), [(s.sid, true)], conn, false⟩ }
      rid now ⟨(ip, port), [(s.sid, true)], conn, false⟩
      (dget_dput_self s.pending_reg rid _)
  · intro hq
    rw [check_reg_quorum_commit s rid now e he hd hq]
    refine ⟨by simp [dget_dput_self], by simp [dget_dput_self], rfl, ?_⟩
    exact pl_excl_not_self _ e.peer
  · intro hq
    by_cases hn : (countNo e.votes : Int) > (s.n_seeds : Int) - (quorum s : Int)
    · constructor
      · simp [check_reg_quorum, he, hd, hq, hn]
      · simp [check_reg_quorum, he, hd, hq, hn]
    · constructor
      · simp [check_reg_quorum, he, hd, hq, hn]
      · simp [check_reg_quorum, he, hd, hq, hn]

/-- Concrete 3-seed state with a pending registration that has two YES
votes (quorum = 2). -/
def c2state : SeedState :=
  { sid := "127.0.0.1:5001", n_seeds := 3,
    peer_list := [(("127.0.0.1", 6002), ⟨1, 0⟩)],
    pending_reg :=
      [("r2", ⟨("127.0.0.1", 6001),
        [("127.0.0.1:5001", true), ("127.0.0.1:5002", true)], 6, false⟩)],
    dead_reports := [], pending_rem := [],
    seed_channels := [("127.0.0.1:5002", 1), ("127.0.0.1:5003", 2)] }

def c2entry : RegEntry :=
  ⟨("127.0.0.1", 6001), [("127.0.0.1:5001", true), ("127.0.0.1:5002", true)], 6, false⟩

/-- Witness for C2: on the concrete state the YES-count reaches quorum
and the commit inserts the peer with degree 0 and decides the entry. -/
theorem c2_witness :
    dget c2state.pending_reg "r2" = some c2entry ∧
    c2entry.decided = false ∧
    countYes c2entry.votes ≥ quorum c2state ∧
    dget (check_reg_quorum c2state "r2" 9).1.peer_list ("127.0.0.1", 6001)
        = some ⟨0, 9⟩ ∧
    dget (check_reg_quorum c2state "r2" 9).1.pending_reg "r2"
        = some { c2entry with decided := true } := by
  refine ⟨by decide, by decide, by decide, ?_, ?_⟩
  · exact ((c2_register_commit_at_quorum c2state "r2" c2entry 9
      (by decide) (by decide)).2.2.1 (by decide)).1
  · exact ((c2_register_commit_at_quorum c2state "r2" c2entry 9
      (by decide) (by decide)).2.2.1 (by decide)).2.1


/-! ## C4: suspect confirmations and peer-quorum reporting -/

theorem dput_dput {α β : Type} [DecidableEq α] (m : List (α × β)) (k : α) (v w : β) :
    dput (dput m k v) k w = dput m k w := by
  induction m with
  | nil => simp [dput]
  | cons hd tl ih =>
    obtain ⟨a, b⟩ := hd
    by_cases h : a = k
    · simp [dput, h]
    · simp [dput, h, ih]

/-- The confirmation set of a suspicion entry after one
SUSPECT_RESPONSE: the responder is added exactly when `alive` is
false (this is the `entry["confirmations"].add(responder)` update). -/
def confAfter (e : SuspEntry) (aliveB : Bool) (responder : String) : List String :=
  if aliveB then e.confirmations else sadd e.confirmations responder

/-- `_on_suspect_response` on a live (undecided) suspicion entry,
written as an equation: when the confirmation count reaches peer-quorum
the entry flips to reported and DEAD_REPORT goes out on every seed
socket; otherwise only the confirmation set is updated. -/
theorem on_suspect_response_undecided_eq (s : PeerState) (suspect : Endpoint)
    (alive : Option Bool) (rip : String) (rport : Int) (ts : Int)
    (e : SuspEntry) (he : dget s.suspected suspect = some e)
    (hr : e.reported = false) :
    on_suspect_response s suspect alive rip rport ts =
      (if (confAfter e (alive.getD true) (rip ++ ":" ++ toString rport)).length ≥ peer_quorum s
       then ({ s with suspected := dput s.suspected suspect ⟨confAfter e (alive.getD true) (rip ++ ":" ++ toString rport), true⟩ }, report_dead s suspect ts)
       else ({ s with suspected := dput s.suspected suspect ⟨confAfter e (alive.getD true) (rip ++ ":" ++ toString rport), false⟩ }, [])) := by
  obtain ⟨conf, rep⟩ := e
  dsimp only at hr
  subst hr
  by_cases ha : alive.getD true
  · simp [on_suspect_response, he, ha, dget_dput_self, dput_dput,
      peer_quorum, report_dead, confAfter, pid]
  · simp [on_suspect_response, he, ha, dget_dput_self, dput_dput,
      peer_quorum, report_dead, confAfter, pid]

/-- C4: peer-quorum is `max(1, ⌊|neighbours|/2⌋+1)`; a SUSPECT_RESPONSE
is ignored when the suspicion entry is missing or already reported; on
a live entry the responder id is added exactly when `alive = false`
(`confAfter`); existing confirmations — in particular the own id
planted by `_start_suspicion` — are never lost; and the reported flag
flips, with DEAD_REPORT sent on every open seed socket, exactly when
the confirmation count reaches peer-quorum. -/
theorem c4_suspect_confirmation_quorum (s : PeerState) (suspect : Endpoint)
    (alive : Option Bool) (rip : String) (rport : Int) (ts : Int) :
    peer_quorum s = max 1 (s.neighbours.length / 2 + 1) ∧
    (dget s.suspected suspect = none →
      on_suspect_response s suspect alive rip rport ts = (s, [])) ∧
    (∀ e, dget s.suspected suspect = some e → e.reported = true →
      on_suspect_response s suspect alive rip rport ts = (s, [])) ∧
    (∀ e, dget s.suspected suspect = some e → e.reported = false →
      on_suspect_response s suspect alive rip rport ts =
        (if (confAfter e (alive.getD true) (rip ++ ":" ++ toString rport)).length ≥ peer_quorum s
         then ({ s with suspected := dput s.suspected suspect ⟨confAfter e (alive.getD true) (rip ++ ":" ++ toString rport), true⟩ }, report_dead s suspect ts)
         else ({ s with suspected := dput s.suspected suspect ⟨confAfter e (alive.getD true) (rip ++ ":" ++ toString rport), false⟩ }, []))) ∧
    (∀ e, dget s.suspected suspect = some e → e.reported = false →
      ∀ x ∈ e.confirmations, ∀ e2,
        dget (on_suspect_response s suspect alive rip rport ts).1.suspected suspect
            = some e2 →
        x ∈ e2.confirmations) ∧
    (dget s.suspected suspect = none →
      dget (start_suspicion s suspect).1.suspected suspect = some ⟨[pid s], false⟩) := by
  refine ⟨rfl, ?_, ?_, ?_, ?_, ?_⟩
  · intro h
    simp [on_suspect_response, h]
  · intro e he hr
    simp [on_suspect_response, he, hr]
  · intro e he hr
    exact on_suspect_response_undecided_eq s suspect alive rip rport ts e he hr
  · intro e he hr x hx e2 he2
    rw [on_suspect_response_undecided_eq s suspect alive rip rport ts e he hr] at he2
    by_cases hc : (confAfter e (alive.getD true) (rip ++ ":" ++ toString rport)).length
        ≥ peer_quorum s
    · simp only [hc, if_true, dget_dput_self, Option.some.injEq] at he2
      subst he2
      by_cases ha : alive.getD true <;> simp [confAfter, ha, mem_sadd, hx]
    · simp only [hc, if_false, dget_dput_self, Option.some.injEq] at he2
      subst he2
      by_cases ha : alive.getD true <;> simp [confAfter, ha, mem_sadd, hx]
  · intro h
    simp [start_suspicion, h, dget_dput_self]

/-- Peer state for the C4 witness: two neighbours (peer-quorum 2), one
suspicion for 6003 already carrying the own id. -/
def pw4 : PeerState :=
  { host := "127.0.0.1", port := 6001, ml := [],
    neighbours := [(("127.0.0.1", 6002), 3), (("127.0.0.1", 6004), 4)],
    seed_socks := [(("127.0.0.1", 5001), 8), (("127.0.0.1", 5002), 9)],
    missed_pings := [], pong_received := [],
    suspected := [(("127.0.0.1", 6003), ⟨["127.0.0.1:6001"], false⟩)] }

/-- Witness for C4: a dead-confirming SUSPECT_RESPONSE from 6002 makes
the count reach peer-quorum 2, flips reported and emits DEAD_REPORT on
both seed sockets. -/
theorem c4_witness :
    dget pw4.suspected ("127.0.0.1", 6003) = some ⟨["127.0.0.1:6001"], false⟩ ∧
    on_suspect_response pw4 ("127.0.0.1", 6003) (some false) "127.0.0.1" 6002 42
      = ({ pw4 with suspected := dput pw4.suspected ("127.0.0.1", 6003) ⟨["127.0.0.1:6001", "127.0.0.1:6002"], true⟩ }, report_dead pw4 ("127.0.0.1", 6003) 42) := by
  refine ⟨by decide, ?_⟩
  have h := (c4_suspect_confirmation_quorum pw4 ("127.0.0.1", 6003) (some false)
      "127.0.0.1" 6002 42).2.2.2.1 ⟨["127.0.0.1:6001"], false⟩ (by decide) rfl
  rw [h]
  decide

/-! ## C10: one removal proposal per (dead endpoint, reporter) pair -/

/-- Effect of `_on_dead_report` on the (never pruned) `dead_reports`
map: a duplicate reporter changes nothing, a fresh one is appended. -/
theorem on_dead_report_dead_reports (s : SeedState) (d : Endpoint) (r rid : String) :
    (on_dead_report s d r rid).1.dead_reports
      = if r ∈ reportersOf s d then s.dead_reports
        else dput s.dead_reports d (reportersOf s d ++ [r]) := by
  unfold on_dead_report
  dsimp only
  split_ifs with h
  · rfl
  · exact (propose_removal_fields _ d rid).1

/-- No seed operation ever removes a reporter from `dead_reports`. -/
theorem seedStep_reporters_mono (s : SeedState) (op : SeedOp) (d : Endpoint)
    (r : String) (h : r ∈ reportersOf s d) : r ∈ reportersOf (seedStep s op).1 d := by
  have hpres : ∀ t : SeedState, t.dead_reports = s.dead_reports → r ∈ reportersOf t d := by
    intro t ht
    unfold reportersOf at h ⊢
    rw [ht]
    exact h
  cases op with
  | regRequest ip port conn rid now =>
    exact hpres _ (on_register_request_fields s ip port conn rid now).1
  | regVote rid voter v now =>
    exact hpres _ (on_register_vote_fields s rid voter v now).1
  | regTimeout rid =>
    exact hpres _ (reg_timeout_fields s rid).1
  | deadVote rid voter v =>
    exact hpres _ (on_dead_vote_fields s rid voter v).1
  | remTimeout rid =>
    exact hpres _ (rem_timeout_fields s rid).1
  | deadSync dd =>
    exact hpres _ rfl
  | deadReport dd rr rid =>
    show r ∈ reportersOf (on_dead_report s dd rr rid).1 d
    unfold reportersOf
    rw [on_dead_report_dead_reports]
    split_ifs with hm
    · exact h
    · by_cases hd : d = dd
      · subst hd
        rw [dget_dput_self]
        exact List.mem_append_left _ h
      · rw [dget_dput_ne _ dd d _ hd]
        exact h

/-- A DEAD_REPORT "fires" when its reporter is fresh for this dead
endpoint and the endpoint is currently registered: exactly the
condition under which `_on_dead_report` reaches `_propose_removal`'s
proposal creation. -/
def deadReportFires (s : SeedState) (d : Endpoint) (r : String) : Bool :=
  decide (r ∉ reportersOf s d) && (dget s.peer_list d).isSome

/-- Whether an operation is a DEAD_REPORT for the given pair. -/
def isDeadReportOp : SeedOp → Endpoint → String → Bool
  | .deadReport dd rr _, d, r => decide (dd = d) && decide (rr = r)
  | _, _, _ => false

/-- Number of removal proposals the pair (d, r) triggers along a trace
of seed operations. -/
def proposalsFor (s : SeedState) (ops : List SeedOp) (d : Endpoint) (r : String) : Nat :=
  match ops with
  | [] => 0
  | op :: rest =>
    (if isDeadReportOp op d r && deadReportFires s d r then 1 else 0)
      + proposalsFor (seedStep s op).1 rest d r

theorem proposalsFor_zero_of_mem (s : SeedState) (ops : List SeedOp) (d : Endpoint)
    (r : String) (h : r ∈ reportersOf s d) : proposalsFor s ops d r = 0 := by
  induction ops generalizing s with
  | nil => rfl
  | cons op rest ih =>
    unfold proposalsFor
    rw [ih _ (seedStep_reporters_mono s op d r h)]
    have hf : deadReportFires s d r = false := by
      simp [deadReportFires, h]
    simp [hf]

theorem dead_report_adds_reporter (s : SeedState) (d : Endpoint) (r rid : String)
    (h : r ∉ reportersOf s d) :
    r ∈ reportersOf (seedStep s (.deadReport d r rid)).1 d := by
  show r ∈ reportersOf (on_dead_report s d r rid).1 d
  unfold reportersOf
  rw [on_dead_report_dead_reports, if_neg h, dget_dput_self]
  simp

/-- Re-checking removal quorum keeps the entry's peer and votes. -/
theorem check_rem_quorum_entry (s : SeedState) (rid : String) (e1 : RemEntry)
    (h : dget s.pending_rem rid = some e1) :
    ∃ e2, dget (check_rem_quorum s rid).1.pending_rem rid = some e2 ∧
      e2.peer = e1.peer ∧ e2.votes = e1.votes := by
  unfold check_rem_quorum
  rw [h]
  dsimp only
  split_ifs <;>
    first
      | exact ⟨e1, h, rfl, rfl⟩
      | exact ⟨{ e1 with decided := true }, by simp [dget_dput_self], rfl, rfl⟩

/-- A removal proposal for a registered endpoint records the proposer's
self-vote in `pending_rem`. -/
theorem propose_removal_entry (s : SeedState) (d : Endpoint) (rid : String)
    (hpl : (dget s.peer_list d).isSome) :
    ∃ e, dget (propose_removal s d rid).1.pending_rem rid = some e ∧
      e.peer = d ∧ e.votes = [(s.sid, true)] := by
  unfold propose_removal
  rw [if_pos hpl]
  dsimp only
  exact check_rem_quorum_entry
    { s with pending_rem := dput s.pending_rem rid ⟨d, [(s.sid, true)], false⟩ }
    rid ⟨d, [(s.sid, true)], false⟩ (dget_dput_self _ _ _)

theorem dead_report_duplicate_dropped (s : SeedState) (d : Endpoint) (r rid : String)
    (h : r ∈ reportersOf s d) : seedStep s (.deadReport d r rid) = (s, []) := by
  show on_dead_report s d r rid = (s, [])
  unfold on_dead_report
  dsimp only
  rw [if_pos h]

theorem dead_report_absent_no_proposal (s : SeedState) (d : Endpoint) (r rid : String)
    (h : dget s.peer_list d = none) :
    (seedStep s (.deadReport d r rid)).1.pending_rem = s.pending_rem ∧
    (seedStep s (.deadReport d r rid)).2 = [] := by
  show (on_dead_report s d r rid).1.pending_rem = s.pending_rem ∧
    (on_dead_report s d r rid).2 = []
  unfold on_dead_report
  dsimp only
  split_ifs with hm
  · exact ⟨rfl, rfl⟩
  · constructor <;> simp [propose_removal, h]

theorem dead_report_creates_proposal (s : SeedState) (d : Endpoint) (r rid : String)
    (hf : deadReportFires s d r = true) :
    ∃ e, dget (seedStep s (.deadReport d r rid)).1.pending_rem rid = some e ∧
      e.peer = d ∧ e.votes = [(s.sid, true)] := by
  have hsplit := hf
  simp only [deadReportFires, Bool.and_eq_true, decide_eq_true_eq] at hsplit
  obtain ⟨hmem, hpl⟩ := hsplit
  show ∃ e, dget (on_dead_report s d r rid).1.pending_rem rid = some e ∧
    e.peer = d ∧ e.votes = [(s.sid, true)]
  unfold on_dead_report
  dsimp only
  rw [if_neg hmem]
  exact propose_removal_entry
    { s with dead_reports := dput s.dead_reports d (reportersOf s d ++ [r]) }
    d rid hpl

/-- C10: `dead_reports` is never pruned, so reporters only accumulate;
along any trace of seed operations a given (dead endpoint, reporter)
pair triggers at most one removal proposal; a repeated DEAD_REPORT from
the same reporter is dropped outright (whatever the current peer_list,
i.e. even after re-registration); no proposal is created for an
endpoint not currently in `peer_list`; and a firing report records a
self-voted `pending_rem` entry for the dead endpoint. -/
theorem c10_dead_report_fires_at_most_once :
    (∀ (s : SeedState) (op : SeedOp) (d : Endpoint) (r : String),
      r ∈ reportersOf s d → r ∈ reportersOf (seedStep s op).1 d) ∧
    (∀ (s : SeedState) (ops : List SeedOp) (d : Endpoint) (r : String),
      proposalsFor s ops d r ≤ 1) ∧
    (∀ (s : SeedState) (d : Endpoint) (r rid : String),
      r ∈ reportersOf s d → seedStep s (.deadReport d r rid) = (s, [])) ∧
    (∀ (s : SeedState) (d : Endpoint) (r rid : String),
      dget s.peer_list d = none →
      (seedStep s (.deadReport d r rid)).1.pending_rem = s.pending_rem ∧
      (seedStep s (.deadReport d r rid)).2 = []) ∧
    (∀ (s : SeedState) (d : Endpoint) (r rid : String),
      deadReportFires s d r = true →
      ∃ e, dget (seedStep s (.deadReport d r rid)).1.pending_rem rid = some e ∧
        e.peer = d ∧ e.votes = [(s.sid, true)]) := by
  refine ⟨seedStep_reporters_mono, ?_, dead_report_duplicate_dropped,
    dead_report_absent_no_proposal, dead_report_creates_proposal⟩
  intro s ops d r
  induction ops generalizing s with
  | nil => simp [proposalsFor]
  | cons op rest ih =>
    by_cases hf : (isDeadReportOp op d r && deadReportFires s d r) = true
    · have hsplit := hf
      simp only [Bool.and_eq_true] at hsplit
      obtain ⟨hop, hfire⟩ := hsplit
      have hmem : r ∉ reportersOf s d := by
        simp only [deadReportFires, Bool.and_eq_true, decide_eq_true_eq] at hfire
        exact hfire.1
      obtain ⟨rid, rfl⟩ : ∃ rid, op = SeedOp.deadReport d r rid := by
        cases op with
        | deadReport dd rr rid =>
          simp only [isDeadReportOp, Bool.and_eq_true, decide_eq_true_eq] at hop
          exact ⟨rid, by rw [hop.1, hop.2]⟩
        | regRequest a b c e f => simp [isDeadReportOp] at hop
        | regVote a b c e => simp [isDeadReportOp] at hop
        | regTimeout a => simp [isDeadReportOp] at hop
        | deadVote a b c => simp [isDeadReportOp] at hop
        | remTimeout a => simp [isDeadReportOp] at hop
        | deadSync a => simp [isDeadReportOp] at hop
      unfold proposalsFor
      rw [proposalsFor_zero_of_mem _ rest d r (dead_report_adds_reporter s d r rid hmem)]
      rw [if_pos hf]
    · unfold proposalsFor
      rw [if_neg hf]
      simpa using ih ((seedStep s op).1)

/-- Seed state for the C10 witness drop case: the reporter is already
recorded for the (still registered) endpoint. -/
def c10state : SeedState :=
  { sid := "127.0.0.1:5001", n_seeds := 3,
    peer_list := [(("127.0.0.1", 6001), ⟨0, 0⟩)],
    pending_reg := [],
    dead_reports := [(("127.0.0.1", 6001), ["127.0.0.1:6002"])],
    pending_rem := [], seed_channels := [] }

/-- Witness for C10: on concrete states a fresh report fires and
records a proposal, a duplicate report is dropped unchanged even
though the peer is registered, and a two-report trace counts at most
one proposal. -/
theorem c10_witness :
    deadReportFires sw0 ("127.0.0.1", 6001) "127.0.0.1:6002" = true ∧
    (∃ e, dget (seedStep sw0
        (SeedOp.deadReport ("127.0.0.1", 6001) "127.0.0.1:6002" "rm1")).1.pending_rem
          "rm1" = some e ∧
      e.peer = ("127.0.0.1", 6001) ∧ e.votes = [(sw0.sid, true)]) ∧
    ("127.0.0.1:6002" ∈ reportersOf c10state ("127.0.0.1", 6001) ∧
      seedStep c10state (SeedOp.deadReport ("127.0.0.1", 6001) "127.0.0.1:6002" "rm2")
        = (c10state, [])) ∧
    proposalsFor sw0
      [SeedOp.deadReport ("127.0.0.1", 6001) "127.0.0.1:6002" "rm1",
       SeedOp.deadReport ("127.0.0.1", 6001) "127.0.0.1:6002" "rm2"]
      ("127.0.0.1", 6001) "127.0.0.1:6002" ≤ 1 := by
  refine ⟨by decide, ?_, ⟨by decide, ?_⟩, ?_⟩
  · exact c10_dead_report_fires_at_most_once.2.2.2.2 sw0 ("127.0.0.1", 6001)
      "127.0.0.1:6002" "rm1" (by decide)
  · exact c10_dead_report_fires_at_most_once.2.2.1 c10state ("127.0.0.1", 6001)
      "127.0.0.1:6002" "rm2" (by decide)
  · exact c10_dead_report_fires_at_most_once.2.1 sw0 _ ("127.0.0.1", 6001)
      "127.0.0.1:6002"

/-! ## C7: power-law neighbour selection (`_select_neighbours`)

The random draws are oracle inputs: `kraw` stands for the value of
`int(random.paretovariate(2.5))` and `rs t` for the uniform
`random.random()` drawn in iteration `t`.  Weights and probabilities
are rationals. -/

/-- `min(n, max(1, int(random.paretovariate(2.5))))`. -/
def kClamp (n : Nat) (kraw : Int) : Nat := min n (max 1 kraw.toNat)

/-- The inner scan of `_select_neighbours`: walk the remaining
probabilities accumulating `cum`; return the first index with
`r ≤ cum`; when the scan falls through, return the fallback
(the last remaining index). -/
def pickLoop (r : ℚ) : List ℚ → ℚ → Nat → Nat → Nat
  | [], _, _, fallback => fallback
  | p :: rest, cum, i, fallback =>
    if r ≤ cum + p then i else pickLoop r rest (cum + p) (i + 1) fallback

/-- One inverse-CDF draw over the current probability list. -/
def pickIdx (r : ℚ) (probs : List ℚ) : Nat :=
  pickLoop r probs 0 0 (probs.length - 1)

/-- The `for _ in range(k)` loop of `_select_neighbours`: pick an
index, record the original index, remove it from both lists, and
renormalise the remaining probabilities (`sum or 1.0`). -/
def selectLoop (rs : Nat → ℚ) : Nat → Nat → List Nat → List ℚ → List Nat
  | 0, _, _, _ => []
  | k + 1, t, remIdx, remProbs =>
    if remIdx.isEmpty then []
    else
      let picked := pickIdx (rs t) remProbs
      let orig := remIdx.getD picked 0
      let probs1 := remProbs.eraseIdx picked
      let ssum := probs1.sum
      let denom := if ssum = 0 then 1 else ssum
      orig :: selectLoop rs k (t + 1) (remIdx.eraseIdx picked)
        (probs1.map (fun q => q / denom))

/-- `_select_neighbours` up to the final projection to endpoints:
clamp k, weight candidates by `degree + 1`, normalise, and draw k
distinct indices without replacement. -/
def selectIdxs (pl : List PLEntry) (kraw : Int) (rs : Nat → ℚ) : List Nat :=
  if pl.isEmpty then []
  else
    let n := pl.length
    let k := kClamp n kraw
    let weights := pl.map (fun p => (p.degree : ℚ) + 1)
    let total := weights.sum
    let probs := weights.map (fun w => w / total)
    selectLoop rs k 0 (List.range n) probs

/-- `_select_neighbours`: the chosen entries' endpoints. -/
def select_neighbours (pl : List PLEntry) (kraw : Int) (rs : Nat → ℚ) : List Endpoint :=
  (selectIdxs pl kraw rs).map
    (fun i => ((pl.getD i ⟨"", 0, 0⟩).ip, (pl.getD i ⟨"", 0, 0⟩).port))

/-- The first index (relative to the accumulated mass `c`) whose
cumulative probability reaches `r`, if any. -/
def firstHit (r : ℚ) : List ℚ → ℚ → Option Nat
  | [], _ => none
  | p :: rest, c => if r ≤ c + p then some 0 else (firstHit r rest (c + p)).map (· + 1)

theorem pickLoop_eq_firstHit (r : ℚ) (probs : List ℚ) (cum : ℚ) (i fb : Nat) :
    pickLoop r probs cum i fb =
      match firstHit r probs cum with
      | some j => i + j
      | none => fb := by
  induction probs generalizing cum i with
  | nil => rfl
  | cons p rest ih =>
    unfold pickLoop firstHit
    by_cases h : r ≤ cum + p
    · simp [h]
    · simp only [h, if_false]
      rw [ih (cum + p) (i + 1)]
      cases hfh : firstHit r rest (cum + p) with
      | none => simp
      | some j => simp [Nat.add_assoc, Nat.add_comm 1 j]

theorem firstHit_none (r : ℚ) (probs : List ℚ) (c : ℚ)
    (h : firstHit r probs c = none) :
    ∀ j < probs.length, ¬ r ≤ c + (probs.take (j + 1)).sum := by
  induction probs generalizing c with
  | nil =>
    intro j hj
    simp at hj
  | cons p rest ih =>
    unfold firstHit at h
    by_cases hp : r ≤ c + p
    · simp [hp] at h
    · simp only [hp, if_false, Option.map_eq_none'] at h
      intro j hj
      cases j with
      | zero => simpa using hp
      | succ j0 =>
        have := ih (c + p) h j0 (by simpa using hj)
        simpa [add_assoc] using this

theorem firstHit_some (r : ℚ) (probs : List ℚ) (c : ℚ) (j : Nat)
    (h : firstHit r probs c = some j) :
    j < probs.length ∧ r ≤ c + (probs.take (j + 1)).sum ∧
      ∀ m < j, ¬ r ≤ c + (probs.take (m + 1)).sum := by
  induction probs generalizing c j with
  | nil => simp [firstHit] at h
  | cons p rest ih =>
    unfold firstHit at h
    by_cases hp : r ≤ c + p
    · simp only [hp, if_true, Option.some.injEq] at h
      subst h
      refine ⟨by simp, by simpa using hp, ?_⟩
      intro m hm
      omega
    · simp only [hp, if_false, Option.map_eq_some'] at h
      obtain ⟨j0, hj0, hj⟩ := h
      subst hj
      obtain ⟨h1, h2, h3⟩ := ih (c + p) j0 hj0
      refine ⟨by simpa using h1, by simpa [add_assoc] using h2, ?_⟩
      intro m hm
      cases m with
      | zero => simpa using hp
      | succ m0 =>
        have := h3 m0 (by omega)
        simpa [add_assoc] using this

/-- The inverse-CDF draw: `pickIdx` returns the first index whose
cumulative probability reaches the draw, and the last index when the
cumulative never catches it. -/
theorem pickIdx_spec (r : ℚ) (probs : List ℚ) (h : probs ≠ []) :
    pickIdx r probs < probs.length ∧
    ((∃ j, j < probs.length ∧ r ≤ (probs.take (j + 1)).sum) →
      r ≤ (probs.take (pickIdx r probs + 1)).sum ∧
      ∀ m < pickIdx r probs, ¬ r ≤ (probs.take (m + 1)).sum) ∧
    ((∀ j < probs.length, ¬ r ≤ (probs.take (j + 1)).sum) →
      pickIdx r probs = probs.length - 1) := by
  have hlen : 0 < probs.length := List.length_pos.mpr h
  have heq := pickLoop_eq_firstHit r probs 0 0 (probs.length - 1)
  cases hfh : firstHit r probs 0 with
  | some j =>
    obtain ⟨h1, h2, h3⟩ := firstHit_some r probs 0 j hfh
    have hpick : pickIdx r probs = j := by
      unfold pickIdx
      rw [heq, hfh]
      simp
    refine ⟨by omega, ?_, ?_⟩
    · intro _
      rw [hpick]
      constructor
      · simpa using h2
      · intro m hm
        have := h3 m hm
        simpa using this
    · intro hall
      exact absurd (by simpa using h2) (hall j h1)
  | none =>
    have hall := firstHit_none r probs 0 hfh
    have hpick : pickIdx r probs = probs.length - 1 := by
      unfold pickIdx
      rw [heq, hfh]
    refine ⟨by omega, ?_, fun _ => hpick⟩
    intro hex
    obtain ⟨j, hj, hle⟩ := hex
    exact absurd hle (by simpa using hall j hj)

theorem getD_mem_of_lt {l : List Nat} {i : Nat} (h : i < l.length) (d : Nat) :
    l.getD i d ∈ l := by
  induction l generalizing i with
  | nil => simp at h
  | cons a tl ih =>
    cases i with
    | zero => simp
    | succ i0 =>
      simp only [List.getD_cons_succ]
      exact List.mem_cons_of_mem _ (ih (by simpa using h))

theorem getD_not_mem_eraseIdx {l : List Nat} (hnd : l.Nodup) {i : Nat}
    (h : i < l.length) : l.getD i 0 ∉ l.eraseIdx i := by
  induction l generalizing i with
  | nil => simp at h
  | cons a tl ih =>
    cases i with
    | zero =>
      simp only [List.getD_cons_zero, List.eraseIdx_cons_zero]
      exact (List.nodup_cons.mp hnd).1
    | succ i0 =>
      simp only [List.getD_cons_succ, List.eraseIdx_cons_succ, List.mem_cons]
      push_neg
      constructor
      · intro heq
        have hmem : tl.getD i0 0 ∈ tl := getD_mem_of_lt (by simpa using h) 0
        rw [heq] at hmem
        exact absurd hmem (List.nodup_cons.mp hnd).1
      · exact ih (List.nodup_cons.mp hnd).2 (by simpa using h)

/-- The selection loop picks exactly `min k |remaining|` indices, all
distinct and all from the remaining-index list, removing each pick
before the next draw (sampling without replacement). -/
theorem selectLoop_spec (rs : Nat → ℚ) (k : Nat) :
    ∀ (t : Nat) (remIdx : List Nat) (remProbs : List ℚ),
      remIdx.length = remProbs.length → remIdx.Nodup →
      (selectLoop rs k t remIdx remProbs).length = min k remIdx.length ∧
      (selectLoop rs k t remIdx remProbs).Nodup ∧
      ∀ x ∈ selectLoop rs k t remIdx remProbs, x ∈ remIdx := by
  induction k with
  | zero =>
    intro t remIdx remProbs hlen hnd
    simp [selectLoop]
  | succ k ih =>
    intro t remIdx remProbs hlen hnd
    by_cases he : remIdx.isEmpty = true
    · have hnil : remIdx = [] := List.isEmpty_iff.mp he
      subst hnil
      simp [selectLoop]
    · have hne : remIdx ≠ [] := by
        intro hh
        rw [hh] at he
        simp at he
      have hlenpos : 0 < remIdx.length := List.length_pos.mpr hne
      have hprobsne : remProbs ≠ [] := by
        intro hh
        rw [hh] at hlen
        simp at hlen
        exact hne hlen
      have hpick : pickIdx (rs t) remProbs < remProbs.length :=
        (pickIdx_spec (rs t) remProbs hprobsne).1
      have hpickIdx : pickIdx (rs t) remProbs < remIdx.length := by
        rw [hlen]
        exact hpick
      have hlen2 : (remIdx.eraseIdx (pickIdx (rs t) remProbs)).length
          = ((remProbs.eraseIdx (pickIdx (rs t) remProbs)).map
              (fun q => q / (if (remProbs.eraseIdx (pickIdx (rs t) remProbs)).sum = 0
                then 1 else (remProbs.eraseIdx (pickIdx (rs t) remProbs)).sum))).length := by
        rw [List.length_map, List.length_eraseIdx_of_lt hpickIdx,
          List.length_eraseIdx_of_lt hpick, hlen]
      have hnd2 : (remIdx.eraseIdx (pickIdx (rs t) remProbs)).Nodup :=
        List.Nodup.sublist (List.eraseIdx_sublist _ _) hnd
      obtain ⟨ihlen, ihnd, ihsub⟩ := ih (t + 1) _ _ hlen2 hnd2
      refine ⟨?_, ?_, ?_⟩
      · show (selectLoop rs (k + 1) t remIdx remProbs).length = _
        unfold selectLoop
        rw [if_neg he]
        dsimp only
        rw [List.length_cons, ihlen, List.length_eraseIdx_of_lt hpickIdx]
        rw [Nat.min_def, Nat.min_def]
        split_ifs <;> omega
      · unfold selectLoop
        rw [if_neg he]
        dsimp only
        rw [List.nodup_cons]
        refine ⟨?_, ihnd⟩
        intro hmem
        exact getD_not_mem_eraseIdx hnd hpickIdx (ihsub _ hmem)
      · unfold selectLoop
        rw [if_neg he]
        dsimp only
        intro x hx
        rcases List.mem_cons.mp hx with h1 | h2
        · rw [h1]
          exact getD_mem_of_lt hpickIdx 0
        · exact (List.eraseIdx_sublist remIdx _).subset (ihsub x h2)

/-- `selectIdxs` on a nonempty union list: exactly `kClamp` indices,
pairwise distinct, each a valid index into the list. -/
theorem selectIdxs_spec (pl : List PLEntry) (kraw : Int) (rs : Nat → ℚ)
    (h : pl ≠ []) :
    (selectIdxs pl kraw rs).length = kClamp pl.length kraw ∧
    (selectIdxs pl kraw rs).Nodup ∧
    ∀ i ∈ selectIdxs pl kraw rs, i < pl.length := by
  have hie : ¬ (pl.isEmpty = true) := by
    simp [List.isEmpty_iff, h]
  unfold selectIdxs
  rw [if_neg hie]
  dsimp only
  have hlen : (List.range pl.length).length
      = ((pl.map (fun p => ((p.degree : ℚ) + 1))).map
          (fun w => w / (pl.map (fun p => ((p.degree : ℚ) + 1))).sum)).length := by
    simp
  obtain ⟨h1, h2, h3⟩ :=
    selectLoop_spec rs (kClamp pl.length kraw) 0 _ _ hlen (List.nodup_range pl.length)
  refine ⟨?_, h2, ?_⟩
  · rw [h1, List.length_range]
    have hk : kClamp pl.length kraw ≤ pl.length := min_le_left _ _
    omega
  · intro i hi
    exact List.mem_range.mp (h3 i hi)

/-- C7: on a nonempty union peer list of size n, the neighbour count k
(taken from the Pareto draw `kraw`) is clamped to `[1, n]`; exactly k
indices are selected, pairwise distinct (without replacement) and in
range; the chosen endpoints are those entries; the weights are
`degree + 1` normalised by their total; and every single draw takes
the first index whose cumulative probability reaches the uniform, or
the last remaining index when the cumulative never catches it. -/
theorem c7_select_neighbours_spec (pl : List PLEntry) (kraw : Int) (rs : Nat → ℚ)
    (h : pl ≠ []) :
    (1 ≤ kClamp pl.length kraw ∧ kClamp pl.length kraw ≤ pl.length) ∧
    (selectIdxs pl kraw rs).length = kClamp pl.length kraw ∧
    (selectIdxs pl kraw rs).Nodup ∧
    (∀ i ∈ selectIdxs pl kraw rs, i < pl.length) ∧
    select_neighbours pl kraw rs
      = (selectIdxs pl kraw rs).map
          (fun i => ((pl.getD i ⟨"", 0, 0⟩).ip, (pl.getD i ⟨"", 0, 0⟩).port)) ∧
    selectIdxs pl kraw rs
      = selectLoop rs (kClamp pl.length kraw) 0 (List.range pl.length)
          ((pl.map (fun p => ((p.degree : ℚ) + 1))).map
            (fun w => w / (pl.map (fun p => ((p.degree : ℚ) + 1))).sum)) ∧
    (∀ (r : ℚ) (probs : List ℚ), probs ≠ [] →
      pickIdx r probs < probs.length ∧
      ((∃ j, j < probs.length ∧ r ≤ (probs.take (j + 1)).sum) →
        r ≤ (probs.take (pickIdx r probs + 1)).sum ∧
        ∀ m < pickIdx r probs, ¬ r ≤ (probs.take (m + 1)).sum) ∧
      ((∀ j < probs.length, ¬ r ≤ (probs.take (j + 1)).sum) →
        pickIdx r probs = probs.length - 1)) := by
  obtain ⟨h1, h2, h3⟩ := selectIdxs_spec pl kraw rs h
  have hie : ¬ (pl.isEmpty = true) := by
    simp [List.isEmpty_iff, h]
  have hlenpos : 0 < pl.length := List.length_pos.mpr h
  refine ⟨⟨?_, min_le_left _ _⟩, h1, h2, h3, rfl, ?_, pickIdx_spec⟩
  · have : 1 ≤ max 1 kraw.toNat := le_max_left _ _
    unfold kClamp
    omega
  · unfold selectIdxs
    rw [if_neg hie]

/-- Witness for C7 at a concrete two-entry list with a Pareto draw of 3
(clamped to 2) and constant uniform draws. -/
theorem c7_witness :
    ([⟨"127.0.0.1", 6002, 10⟩, ⟨"127.0.0.1", 6003, 0⟩] : List PLEntry) ≠ [] ∧
    (selectIdxs [⟨"127.0.0.1", 6002, 10⟩, ⟨"127.0.0.1", 6003, 0⟩] 3
        (fun _ => (1 : ℚ) / 2)).length
      = kClamp 2 3 ∧
    (selectIdxs [⟨"127.0.0.1", 6002, 10⟩, ⟨"127.0.0.1", 6003, 0⟩] 3
        (fun _ => (1 : ℚ) / 2)).Nodup := by
  refine ⟨by simp, ?_, ?_⟩
  · exact (c7_select_neighbours_spec
      [⟨"127.0.0.1", 6002, 10⟩, ⟨"127.0.0.1", 6003, 0⟩] 3 (fun _ => (1 : ℚ) / 2)
      (by simp)).2.1
  · exact (c7_select_neighbours_spec
      [⟨"127.0.0.1", 6002, 10⟩, ⟨"127.0.0.1", 6003, 0⟩] 3 (fun _ => (1 : ℚ) / 2)
      (by simp)).2.2.1
